import Mathlib

/-!
Verification of the MTGO-Tracker ingestion pipeline (`convert_logs.py`).

The file shallowly embeds the data model and the operations of
`convert_logs.py`: the five SQLite tables created by `create_database`,
the `INSERT OR IGNORE` semantics of each insert statement, the scan /
parse / invert / commit pipeline of `convert_logs`, and the CLI dispatch
of the `__main__` block.  The external module `modo` (transcript parser
`modo.get_all_data` and perspective inverter `modo.invert_join`) is kept
abstract: a file carries the outcome `get_all_data` yields on its
content, and `invert_join` is a universally quantified parameter.
-/

set_option autoImplicit false

namespace MTGOTracker

/-- A row of the `Matches` table (schema of `create_database`,
`convert_logs.py` lines 40-60).  SQLite declares
`PRIMARY KEY (Match_ID, P1)`. -/
structure MatchesRow where
  Match_ID : String
  Draft_ID : String
  P1 : String
  P1_Arch : String
  P1_Subarch : String
  P2 : String
  P2_Arch : String
  P2_Subarch : String
  P1_Roll : Int
  P2_Roll : Int
  Roll_Winner : String
  P1_Wins : Int
  P2_Wins : Int
  Match_Winner : String
  Format : String
  Limited_Format : String
  Match_Type : String
  Date : String
deriving DecidableEq, Repr

/-- A row of the `Games` table (`convert_logs.py` lines 62-76).
SQLite declares `PRIMARY KEY (Match_ID, Game_Num, P1)`. -/
structure GamesRow where
  Match_ID : String
  P1 : String
  P2 : String
  Game_Num : Int
  PD_Selector : String
  PD_Choice : String
  On_Play : String
  On_Draw : String
  P1_Mulls : Int
  P2_Mulls : Int
  Turns : Int
  Game_Winner : String
deriving DecidableEq, Repr

/-- A row of the `Plays` table (`convert_logs.py` lines 78-95).
Note: this table declares NO primary key. -/
structure PlaysRow where
  Match_ID : String
  Game_Num : Int
  Play_Num : Int
  Turn_Num : Int
  Casting_Player : String
  Action : String
  Primary_Card : String
  Target1 : String
  Target2 : String
  Target3 : String
  Opp_Target : Int
  Self_Target : Int
  Cards_Drawn : Int
  Attackers : Int
  Active_Player : String
  Nonactive_Player : String
deriving DecidableEq, Repr

/-- A row of the `GameActions` table (`convert_logs.py` lines 97-102).
SQLite declares `PRIMARY KEY (Match_ID, Game_Num)`. -/
structure GameActionsRow where
  Match_ID : String
  Game_Num : Nat
  Game_Actions : String
deriving DecidableEq, Repr

/-- A row of the `Processed_Files` ledger table (`convert_logs.py`
lines 34-38).  SQLite declares `Filename TEXT PRIMARY KEY`. -/
structure ProcessedFilesRow where
  Filename : String
  Match_ID : String
  Processed_Date : String
deriving DecidableEq, Repr

/-- Primary key of a `Matches` row: `(Match_ID, P1)`. -/
def MatchesRow.key (r : MatchesRow) : String × String :=
  (r.Match_ID, r.P1)

/-- Primary key of a `Games` row: `(Match_ID, Game_Num, P1)`. -/
def GamesRow.key (r : GamesRow) : String × Int × String :=
  (r.Match_ID, r.Game_Num, r.P1)

/-- Primary key of a `GameActions` row: `(Match_ID, Game_Num)`. -/
def GameActionsRow.key (r : GameActionsRow) : String × Nat :=
  (r.Match_ID, r.Game_Num)

/-- Primary key of a `Processed_Files` row: `Filename`. -/
def ProcessedFilesRow.key (r : ProcessedFilesRow) : String :=
  r.Filename

/-- The database state: contents of the five tables created by
`create_database`.  A table is the list of its rows in insertion
order. -/
structure DB where
  processed_files : List ProcessedFilesRow
  Matches : List MatchesRow
  Games : List GamesRow
  Plays : List PlaysRow
  GameActions : List GameActionsRow
deriving DecidableEq, Repr

/-- Model of `INSERT OR IGNORE` into a table whose only constraint is the primary
key extracted by `key`: if a row with the same key is already present
the statement is a no-op, otherwise the row is appended. -/
def insertOrIgnore {α : Type} {κ : Type} [DecidableEq κ]
    (key : α → κ) (t : List α) (r : α) : List α :=
  if t.any (fun x => key x = key r) then t else t ++ [r]

/-- Model of `INSERT OR IGNORE INTO Plays` (`convert_logs.py` lines 232-235):
the `Plays` table declares no primary key or unique constraint, so `OR
IGNORE` never fires and every insert appends a row. -/
def insertPlays (t : List PlaysRow) (r : PlaysRow) : List PlaysRow :=
  t ++ [r]

section ParsedData

/-- The structured result `modo.get_all_data` returns on a transcript
it accepts: `parsed_data[0]` (the match row), `parsed_data[1]` (game
rows), `parsed_data[2]` (play rows) and `parsed_data[3]` (the dict from
action-log key to the list of raw action lines, in insertion order). -/
structure ParsedData where
  matchRow : MatchesRow
  games : List GamesRow
  plays : List PlaysRow
  actions : List (String × List String)
deriving DecidableEq, Repr

/-- What happens when `convert_logs` reads and parses one file:
`ok` models `modo.get_all_data` returning structured data, `reject`
models it returning a string (`isinstance(parsed_data, str)` at line
184), and `err` models any exception raised while reading or parsing
the file (caught at line 206). -/
inductive ParseOutcome where
  | ok : ParsedData → ParseOutcome
  | reject : String → ParseOutcome
  | err : ParseOutcome
deriving DecidableEq, Repr

/-- A candidate log file found by `find_log_files`, together with the
outcome that reading and parsing its (fixed) content and mtime
produces. -/
structure LogFile where
  path : String
  basename : String
  data : ParseOutcome
deriving DecidableEq, Repr

/-- Holds when parsing the file succeeds (structured data returned). -/
def LogFile.isOk (f : LogFile) : Bool :=
  match f.data with
  | .ok _ => true
  | _ => false

/-- Holds when the parser returns a rejection string for the file. -/
def LogFile.isReject (f : LogFile) : Bool :=
  match f.data with
  | .reject _ => true
  | _ => false

/-- Holds when reading or parsing the file raises an exception. -/
def LogFile.isErr (f : LogFile) : Bool :=
  match f.data with
  | .err => true
  | _ => false

/-- Set one key of a Python dict modelled as an insertion-ordered
association list: an existing key keeps its position and gets the new
value, a fresh key is appended. -/
def dictSet (d : List (String × List String)) (k : String)
    (v : List String) : List (String × List String) :=
  if d.any (fun p => p.1 = k) then
    d.map (fun p => if p.1 = k then (k, v) else p)
  else
    d ++ [(k, v)]

/-- Python dict update `d.update(other)`: every key of `other` is set in
`d`, later occurrences overwriting earlier ones. -/
def dictUpdate (d other : List (String × List String)) :
    List (String × List String) :=
  other.foldl (fun acc p => dictSet acc p.1 p.2) d

/-- The batch accumulated across the parse loop: `all_matches`,
`all_games`, `all_plays` and the `all_actions` dict of
`convert_logs.py` lines 168-171, also the shape of
`modo.invert_join`'s argument and result. -/
structure AllData where
  all_matches : List MatchesRow
  all_games : List GamesRow
  all_plays : List PlaysRow
  all_actions : List (String × List String)
deriving DecidableEq, Repr

end ParsedData

section GameActionsInsert

/-- Python slice `value[-15:]` of a list: the suffix holding the most recent
`n` elements (the whole list when it has at most `n` elements). -/
def pyLastN {α : Type} (n : Nat) (v : List α) : List α :=
  v.drop (v.length - n)

/-- Python slice `s[:-2]` of a string: all but the last two characters
(empty when the string has at most two). -/
def pyDropLast2 (s : String) : String :=
  String.mk (s.data.take (s.data.length - 2))

/-- The row the `GameActions` insert at `convert_logs.py` lines 238-242
builds from one entry of the inverted action dict:
`[key[:-2], int(key[-1]), '\n'.join(value[-15:])]`.  `int(key[-1])`
succeeds exactly when the key's last character is a decimal digit
(`none` models the raised `ValueError`, or the `IndexError` on an empty
key). -/
def gameActionRow (k : String) (v : List String) :
    Option GameActionsRow :=
  match k.data.getLast? with
  | none => none
  | some c =>
      if c.isDigit then
        some ⟨pyDropLast2 k, c.toNat - 48,
              String.intercalate "\n" (pyLastN 15 v)⟩
      else
        none

/-- The `GameActions` insert loop (`convert_logs.py` lines 238-242):
one `INSERT OR IGNORE` per dict entry; a key whose last character is
not a digit raises, which aborts the run before `conn.commit()`
(modelled by `none`). -/
def insertGameActions (t : List GameActionsRow)
    (entries : List (String × List String)) :
    Option (List GameActionsRow) :=
  entries.foldlM
    (fun acc p =>
      (gameActionRow p.1 p.2).map (insertOrIgnore GameActionsRow.key acc))
    t

end GameActionsInsert

section ConvertLogs

/-- Model of `get_processed_files` followed by the filter at line 156:
the candidate files whose basename is not yet in the
`Processed_Files` ledger. -/
def newFiles (db : DB) (files : List LogFile) : List LogFile :=
  files.filter
    (fun f => !(db.processed_files.any (fun r => r.Filename = f.basename)))

/-- State threaded through the per-file loop of `convert_logs`
(lines 165-208): the staged (uncommitted) `Processed_Files` writes, the
three counters, and the accumulated batch. -/
structure ParsePhase where
  ledger : List ProcessedFilesRow
  matchCount : Nat
  errorCount : Nat
  skippedCount : Nat
  batch : AllData
deriving DecidableEq, Repr

/-- One iteration of the loop at `convert_logs.py` lines 173-208: an
exception bumps `error_count`, a rejection string bumps
`skipped_count`, and a successful parse appends to the four
accumulators, stages an `INSERT OR IGNORE` ledger row
`[filename, match_id, now]`, and bumps `match_count`. -/
def processFile (now : String) (st : ParsePhase) (f : LogFile) :
    ParsePhase :=
  match f.data with
  | .err => { st with errorCount := st.errorCount + 1 }
  | .reject _ => { st with skippedCount := st.skippedCount + 1 }
  | .ok pd =>
      { st with
        batch :=
          { all_matches := st.batch.all_matches ++ [pd.matchRow]
            all_games := st.batch.all_games ++ pd.games
            all_plays := st.batch.all_plays ++ pd.plays
            all_actions := dictUpdate st.batch.all_actions pd.actions }
        ledger :=
          insertOrIgnore ProcessedFilesRow.key st.ledger
            ⟨f.basename, pd.matchRow.Match_ID, now⟩
        matchCount := st.matchCount + 1 }

/-- Result of one `convert_logs` run: the three counters printed in the
summary line (line 210) and the database state the process leaves
behind.  `outcome = some d` means the run returned normally and the
durable state is `d` (the single `conn.commit()` at line 244, or the
untouched input state when no commit ran); `outcome = none` means an
uncaught exception in the insert phase ended the process before
`conn.commit()`, so the staged writes roll back and the durable state
is the input state. -/
structure RunResult where
  matchCount : Nat
  errorCount : Nat
  skippedCount : Nat
  outcome : Option DB
deriving DecidableEq, Repr

/-- The parse loop of `convert_logs` over the new files, starting from
zeroed counters, an empty batch, and the current ledger contents. -/
def parseAll (now : String) (db : DB) (files : List LogFile) :
    ParsePhase :=
  (newFiles db files).foldl (processFile now)
    ⟨db.processed_files, 0, 0, 0, ⟨[], [], [], []⟩⟩

/-- Model of `convert_logs(log_folder, db_path)` (`convert_logs.py` lines
125-249), with the directory scan abstracted into the list `files` of
candidate files and `modo.invert_join` abstracted into `invert`.
Mirrors the source: filter already-processed basenames; if nothing is
new, return with the store untouched; otherwise run the per-file loop,
and if at least one match parsed, invert the batch once and insert
everything (`INSERT OR IGNORE` per table, plain append for the keyless
`Plays` table) followed by the single `conn.commit()`.  When
`match_count` stays zero the connection closes without a commit and the
store is untouched. -/
def convert_logs (invert : AllData → AllData) (db : DB)
    (files : List LogFile) (now : String) : RunResult :=
  let new := newFiles db files
  if new.isEmpty then
    ⟨0, 0, 0, some db⟩
  else
    let st := parseAll now db files
    if st.matchCount > 0 then
      let inv := invert st.batch
      let matchesTab := inv.all_matches.foldl (insertOrIgnore MatchesRow.key) db.Matches
      let gamesTab := inv.all_games.foldl (insertOrIgnore GamesRow.key) db.Games
      let playsTab := inv.all_plays.foldl insertPlays db.Plays
      match insertGameActions db.GameActions inv.all_actions with
      | none => ⟨st.matchCount, st.errorCount, st.skippedCount, none⟩
      | some ga =>
          ⟨st.matchCount, st.errorCount, st.skippedCount,
           some ⟨st.ledger, matchesTab, gamesTab, playsTab, ga⟩⟩
    else
      ⟨st.matchCount, st.errorCount, st.skippedCount, some db⟩

/-- The store state visible after a run: the committed state on a
normal return, the unchanged input state when the process died before
`conn.commit()`. -/
def visibleDB (invert : AllData → AllData) (db : DB)
    (files : List LogFile) (now : String) : DB :=
  (convert_logs invert db files now).outcome.getD db

/-- Process exit code of a run: `0` on a normal return, `1` when an
uncaught exception ends the interpreter. -/
def exitOf (r : RunResult) : Nat :=
  match r.outcome with
  | some _ => 0
  | none => 1

/-- The `__main__` dispatch of `convert_logs.py` (lines 334-363), over
`args = sys.argv[1:]`.  With no arguments the defaults run; `--stats`
and `--help` are read-only; any other first argument is a log folder:
a missing folder exits via `sys.exit(1)`, otherwise `convert_logs`
runs on the folder's scan result. -/
def mainExit (invert : AllData → AllData) (args : List String)
    (pathExists : String → Bool) (db : DB) (files : List LogFile)
    (now : String) : Nat :=
  match args with
  | [] => exitOf (convert_logs invert db files now)
  | a :: _ =>
      if a = "--stats" then 0
      else if a = "--help" then 0
      else if pathExists a then exitOf (convert_logs invert db files now)
      else 1

end ConvertLogs

section ModelAux

/-- The ledger holds a row whose `Filename` is `b`. -/
def ledgerHas (t : List ProcessedFilesRow) (b : String) : Prop :=
  ∃ r ∈ t, r.Filename = b

instance (t : List ProcessedFilesRow) (b : String) :
    Decidable (ledgerHas t b) := by
  unfold ledgerHas
  infer_instance

/-- The commit-relevant part of the loop state: staged ledger, success
counter, accumulated batch (the counters for errors and skips never
feed back into the store). -/
def ParsePhase.core (st : ParsePhase) :
    List ProcessedFilesRow × Nat × AllData :=
  (st.ledger, st.matchCount, st.batch)

/-- The committed database state of a run that reaches `conn.commit()`:
the staged ledger plus the four derived-table insert phases, all made
durable together. -/
def commitDB (invert : AllData → AllData) (db : DB) (files : List LogFile)
    (now : String) (ga : List GameActionsRow) : DB :=
  ⟨(parseAll now db files).ledger,
   (invert (parseAll now db files).batch).all_matches.foldl
     (insertOrIgnore MatchesRow.key) db.Matches,
   (invert (parseAll now db files).batch).all_games.foldl
     (insertOrIgnore GamesRow.key) db.Games,
   (invert (parseAll now db files).batch).all_plays.foldl
     insertPlays db.Plays,
   ga⟩

/-- A concrete `Matches` row used in concrete evaluations. -/
def mRow0 : MatchesRow :=
  ⟨"M", "NA", "Alice", "NA", "NA", "Bob", "NA", "NA", 6, 3, "P1",
   2, 0, "P1", "Constructed", "NA", "2P", "2026-01-01"⟩

/-- A concrete `Games` row used in concrete evaluations. -/
def gRow0 : GamesRow :=
  ⟨"M", "Alice", "Bob", 1, "Alice", "Play", "Alice", "Bob", 0, 0, 8, "P1"⟩

/-- A concrete `Plays` row used in concrete evaluations. -/
def pRow0 : PlaysRow :=
  ⟨"M", 1, 1, 1, "Alice", "Land Drop", "Island", "NA", "NA", "NA",
   0, 0, 0, 0, "Alice", "Bob"⟩

/-- A store that already holds a `GameActions` row for key `("M", 1)`. -/
def dbC1 : DB := ⟨[], [], [], [], [⟨"M", 1, "old line"⟩]⟩

/-- A candidate file whose parse yields an action-map entry for the
key `"MP1"`, which decodes to the already-present `("M", 1)`. -/
def fileC1 : LogFile :=
  ⟨"/logs/Match_GameLog_M.dat", "Match_GameLog_M.dat",
   .ok ⟨mRow0, [gRow0], [pRow0], [("MP1", ["new line"])]⟩⟩

/-- A store that already holds one `Matches`, one `Games` and one
`Plays` row. -/
def dbC2 : DB := ⟨[], [mRow0], [gRow0], [pRow0], []⟩

/-- A candidate file whose parse yields exactly the rows already
present in `dbC2`. -/
def fileC2 : LogFile :=
  ⟨"/logs/Match_GameLog_M.dat", "Match_GameLog_M.dat",
   .ok ⟨mRow0, [gRow0], [pRow0], []⟩⟩

/-- The store state `convert_logs` commits when run on `dbC1` with
`fileC1` (used to instantiate run-level theorems concretely). -/
def S1C1 : DB :=
  ⟨[⟨"Match_GameLog_M.dat", "M", "2026-01-02"⟩],
   [mRow0], [gRow0], [pRow0], [⟨"M", 1, "old line"⟩]⟩

/-- The empty store (all five tables empty). -/
def dbEmpty : DB := ⟨[], [], [], [], []⟩

/-- A candidate file whose read or parse raises an exception. -/
def fErr : LogFile :=
  ⟨"/logs/Match_GameLog_E.dat", "Match_GameLog_E.dat", .err⟩

/-- A store whose ledger already holds the basename of `fileC1`. -/
def dbC9 : DB :=
  ⟨[⟨"Match_GameLog_M.dat", "M", "2026-01-01"⟩], [], [], [], []⟩

/-- A candidate file that parses successfully but whose action map
holds the key `"MPX"`, whose last character is not a digit: the
`GameActions` insert step raises on it, aborting the run before
`conn.commit()`. -/
def fileC8 : LogFile :=
  ⟨"/logs/Match_GameLog_X.dat", "Match_GameLog_X.dat",
   .ok ⟨mRow0, [gRow0], [pRow0], [("MPX", ["line"])]⟩⟩

end ModelAux


section InsertLemmas

theorem mem_insertOrIgnore {α κ : Type} [DecidableEq κ] (key : α → κ)
    (t : List α) (r x : α) (hx : x ∈ t) : x ∈ insertOrIgnore key t r := by
  unfold insertOrIgnore
  split
  · exact hx
  · exact List.mem_append_left _ hx

theorem insertOrIgnore_key_mem {α κ : Type} [DecidableEq κ] (key : α → κ)
    (t : List α) (r : α) (c : κ) :
    (∃ x ∈ insertOrIgnore key t r, key x = c) ↔
      (∃ x ∈ t, key x = c) ∨ c = key r := by
  unfold insertOrIgnore
  split
  next h =>
    rcases List.any_eq_true.mp h with ⟨y, hy, hk⟩
    constructor
    · exact fun hx => Or.inl hx
    · rintro (hx | rfl)
      · exact hx
      · exact ⟨y, hy, of_decide_eq_true hk⟩
  next h =>
    constructor
    · rintro ⟨x, hx, hk⟩
      rcases List.mem_append.mp hx with hx | hx
      · exact Or.inl ⟨x, hx, hk⟩
      · rw [List.mem_singleton.mp hx] at hk
        exact Or.inr hk.symm
    · rintro (⟨x, hx, hk⟩ | rfl)
      · exact ⟨x, List.mem_append_left _ hx, hk⟩
      · exact ⟨r, List.mem_append_right _ (List.mem_singleton.mpr rfl), rfl⟩

theorem insertOrIgnore_keys_nodup {α κ : Type} [DecidableEq κ]
    (key : α → κ) (t : List α) (r : α) (h : (t.map key).Nodup) :
    ((insertOrIgnore key t r).map key).Nodup := by
  unfold insertOrIgnore
  split
  next => exact h
  next hany =>
    rw [List.map_append, List.map_singleton]
    apply List.Nodup.append h (List.nodup_singleton _)
    intro c hc hc1
    rw [List.mem_singleton.mp hc1] at hc
    rcases List.mem_map.mp hc with ⟨x, hx, hk⟩
    exact hany (List.any_eq_true.mpr ⟨x, hx, decide_eq_true hk⟩)

theorem nodup_keys_unique {α κ : Type} (key : α → κ) (l : List α)
    (h : (l.map key).Nodup) {x y : α} (hx : x ∈ l) (hy : y ∈ l)
    (hk : key x = key y) : x = y :=
  List.inj_on_of_nodup_map h hx hy hk

theorem mem_foldl_insertOrIgnore {α κ : Type} [DecidableEq κ]
    (key : α → κ) (rows : List α) :
    ∀ (t : List α) (x : α), x ∈ t →
      x ∈ rows.foldl (insertOrIgnore key) t := by
  induction rows with
  | nil => intro t x hx; simpa using hx
  | cons r rows ih =>
      intro t x hx
      exact ih _ x (mem_insertOrIgnore key t r x hx)

theorem foldl_insertOrIgnore_keys_nodup {α κ : Type} [DecidableEq κ]
    (key : α → κ) (rows : List α) :
    ∀ (t : List α), (t.map key).Nodup →
      ((rows.foldl (insertOrIgnore key) t).map key).Nodup := by
  induction rows with
  | nil => intro t h; simpa using h
  | cons r rows ih =>
      intro t h
      exact ih _ (insertOrIgnore_keys_nodup key t r h)

theorem foldl_insertOrIgnore_key_mem {α κ : Type} [DecidableEq κ]
    (key : α → κ) (rows : List α) :
    ∀ (t : List α) (c : κ),
      (∃ x ∈ rows.foldl (insertOrIgnore key) t, key x = c) ↔
        (∃ x ∈ t, key x = c) ∨ ∃ r ∈ rows, key r = c := by
  induction rows with
  | nil => intro t c; simp
  | cons r rows ih =>
      intro t c
      rw [List.foldl_cons, ih, insertOrIgnore_key_mem]
      constructor
      · rintro ((h | rfl) | ⟨x, hx, hk⟩)
        · exact Or.inl h
        · exact Or.inr ⟨r, List.mem_cons_self _ _, rfl⟩
        · exact Or.inr ⟨x, List.mem_cons_of_mem _ hx, hk⟩
      · rintro (h | ⟨x, hx, hk⟩)
        · exact Or.inl (Or.inl h)
        · rcases List.mem_cons.mp hx with rfl | hx
          · exact Or.inl (Or.inr hk.symm)
          · exact Or.inr ⟨x, hx, hk⟩

end InsertLemmas

section ParseLoopLemmas

theorem processFile_core_congr (now : String) (f : LogFile)
    {st₁ st₂ : ParsePhase} (h : st₁.core = st₂.core) :
    (processFile now st₁ f).core = (processFile now st₂ f).core := by
  rcases Prod.mk.injEq .. ▸ h with ⟨h₁, h₂⟩
  rcases Prod.mk.injEq .. ▸ h₂ with ⟨h₃, h₄⟩
  cases hf : f.data <;>
    simp [processFile, hf, ParsePhase.core, h₁, h₃, h₄]

theorem processFile_core_of_not_ok (now : String) (f : LogFile)
    (st : ParsePhase) (h : f.isOk = false) :
    (processFile now st f).core = st.core := by
  unfold LogFile.isOk at h
  cases hf : f.data <;> simp [hf] at h ⊢ <;>
    simp [processFile, hf, ParsePhase.core]

theorem foldl_processFile_matchCount (now : String) (l : List LogFile) :
    ∀ st : ParsePhase,
      (l.foldl (processFile now) st).matchCount =
        st.matchCount + (l.filter LogFile.isOk).length := by
  induction l with
  | nil => intro st; simp
  | cons f l ih =>
      intro st
      rw [List.foldl_cons, ih]
      cases hf : f.data <;>
        simp [processFile, hf, List.filter_cons, LogFile.isOk] <;> omega

theorem foldl_processFile_errorCount (now : String) (l : List LogFile) :
    ∀ st : ParsePhase,
      (l.foldl (processFile now) st).errorCount =
        st.errorCount + (l.filter LogFile.isErr).length := by
  induction l with
  | nil => intro st; simp
  | cons f l ih =>
      intro st
      rw [List.foldl_cons, ih]
      cases hf : f.data <;>
        simp [processFile, hf, List.filter_cons, LogFile.isErr] <;> omega

theorem foldl_processFile_skippedCount (now : String) (l : List LogFile) :
    ∀ st : ParsePhase,
      (l.foldl (processFile now) st).skippedCount =
        st.skippedCount + (l.filter LogFile.isReject).length := by
  induction l with
  | nil => intro st; simp
  | cons f l ih =>
      intro st
      rw [List.foldl_cons, ih]
      cases hf : f.data <;>
        simp [processFile, hf, List.filter_cons, LogFile.isReject] <;> omega

theorem foldl_processFile_ledger_mem (now : String) (l : List LogFile) :
    ∀ (st : ParsePhase) (b : String),
      ledgerHas (l.foldl (processFile now) st).ledger b ↔
        ledgerHas st.ledger b ∨
          ∃ f ∈ l, f.isOk = true ∧ f.basename = b := by
  induction l with
  | nil => intro st b; simp
  | cons f l ih =>
      intro st b
      rw [List.foldl_cons, ih]
      cases hf : f.data
      case ok pd =>
          have hrow :
              ledgerHas (processFile now st f).ledger b ↔
                ledgerHas st.ledger b ∨ b = f.basename := by
            simpa [processFile, hf, ledgerHas] using
              insertOrIgnore_key_mem ProcessedFilesRow.key st.ledger
                ⟨f.basename, pd.matchRow.Match_ID, now⟩ b
          rw [hrow]
          constructor
          · rintro ((h | rfl) | ⟨g, hg, hgok, rfl⟩)
            · exact Or.inl h
            · exact Or.inr ⟨f, List.mem_cons_self _ _, by simp [LogFile.isOk, hf], rfl⟩
            · exact Or.inr ⟨g, List.mem_cons_of_mem _ hg, hgok, rfl⟩
          · rintro (h | ⟨g, hg, hgok, rfl⟩)
            · exact Or.inl (Or.inl h)
            · rcases List.mem_cons.mp hg with rfl | hg
              · exact Or.inl (Or.inr rfl)
              · exact Or.inr ⟨g, hg, hgok, rfl⟩
      case reject s =>
          simp [processFile, hf, LogFile.isOk]
      case err =>
          simp [processFile, hf, LogFile.isOk]

theorem foldl_processFile_ledger_nodup (now : String) (l : List LogFile) :
    ∀ st : ParsePhase,
      (st.ledger.map ProcessedFilesRow.key).Nodup →
        ((l.foldl (processFile now) st).ledger.map
            ProcessedFilesRow.key).Nodup := by
  induction l with
  | nil => intro st h; simpa using h
  | cons f l ih =>
      intro st h
      rw [List.foldl_cons]
      apply ih
      cases hf : f.data <;> simp [processFile, hf]
      · exact insertOrIgnore_keys_nodup ProcessedFilesRow.key st.ledger _ h
      · exact h
      · exact h

theorem foldl_processFile_core_filter (now : String) (l : List LogFile) :
    ∀ st₁ st₂ : ParsePhase, st₁.core = st₂.core →
      ((l.filter LogFile.isOk).foldl (processFile now) st₁).core =
        (l.foldl (processFile now) st₂).core := by
  induction l with
  | nil => intro st₁ st₂ h; simpa using h
  | cons f l ih =>
      intro st₁ st₂ h
      by_cases hok : f.isOk = true
      · rw [List.filter_cons_of_pos hok, List.foldl_cons, List.foldl_cons]
        exact ih _ _ (processFile_core_congr now f h)
      · rw [List.filter_cons_of_neg (by simpa using hok), List.foldl_cons]
        refine ih _ _ ?_
        rw [processFile_core_of_not_ok now f st₂ (by simpa using hok)]
        exact h

end ParseLoopLemmas

section GameActionsLemmas

theorem mem_of_insertOrIgnore {α κ : Type} [DecidableEq κ]
    (key : α → κ) (t : List α) (r x : α)
    (hx : x ∈ insertOrIgnore key t r) : x ∈ t ∨ x = r := by
  unfold insertOrIgnore at hx
  split at hx
  · exact Or.inl hx
  · rcases List.mem_append.mp hx with h | h
    · exact Or.inl h
    · exact Or.inr (List.mem_singleton.mp h)

theorem insertGameActions_cons (t : List GameActionsRow)
    (p : String × List String) (entries : List (String × List String)) :
    insertGameActions t (p :: entries) =
      Option.bind
        ((gameActionRow p.1 p.2).map (insertOrIgnore GameActionsRow.key t))
        (fun acc => insertGameActions acc entries) := rfl

theorem insertGameActions_mem (entries : List (String × List String)) :
    ∀ (t ga : List GameActionsRow),
      insertGameActions t entries = some ga →
        ∀ x ∈ t, x ∈ ga := by
  induction entries with
  | nil =>
      intro t ga h x hx
      cases h
      exact hx
  | cons p entries ih =>
      intro t ga h x hx
      rw [insertGameActions_cons] at h
      cases hrow : gameActionRow p.1 p.2 with
      | none => rw [hrow] at h; cases h
      | some r =>
          rw [hrow] at h
          exact ih _ _ h x
            (mem_insertOrIgnore GameActionsRow.key t r x hx)

theorem insertGameActions_keys_nodup
    (entries : List (String × List String)) :
    ∀ (t ga : List GameActionsRow),
      insertGameActions t entries = some ga →
        (t.map GameActionsRow.key).Nodup →
          (ga.map GameActionsRow.key).Nodup := by
  induction entries with
  | nil =>
      intro t ga h hn
      cases h
      exact hn
  | cons p entries ih =>
      intro t ga h hn
      rw [insertGameActions_cons] at h
      cases hrow : gameActionRow p.1 p.2 with
      | none => rw [hrow] at h; cases h
      | some r =>
          rw [hrow] at h
          exact ih _ _ h
            (insertOrIgnore_keys_nodup GameActionsRow.key t r hn)

theorem insertGameActions_mem_src
    (entries : List (String × List String)) :
    ∀ (t ga : List GameActionsRow),
      insertGameActions t entries = some ga →
        ∀ x ∈ ga, x ∈ t ∨
          ∃ kv ∈ entries, gameActionRow kv.1 kv.2 = some x := by
  induction entries with
  | nil =>
      intro t ga h x hx
      cases h
      exact Or.inl hx
  | cons p entries ih =>
      intro t ga h x hx
      rw [insertGameActions_cons] at h
      cases hrow : gameActionRow p.1 p.2 with
      | none => rw [hrow] at h; cases h
      | some r =>
          rw [hrow] at h
          rcases ih _ _ h x hx with hmem | ⟨kv, hkv, hkvr⟩
          · rcases mem_of_insertOrIgnore GameActionsRow.key t r x hmem with
              hmem | rfl
            · exact Or.inl hmem
            · exact Or.inr ⟨p, List.mem_cons_self _ _, hrow⟩
          · exact Or.inr ⟨kv, List.mem_cons_of_mem _ hkv, hkvr⟩

theorem insertGameActions_none_of_bad
    (entries : List (String × List String)) :
    ∀ (t : List GameActionsRow) (k : String) (v : List String),
      (k, v) ∈ entries → gameActionRow k v = none →
        insertGameActions t entries = none := by
  induction entries with
  | nil => intro t k v hkv; cases hkv
  | cons p entries ih =>
      intro t k v hkv hbad
      rw [insertGameActions_cons]
      rcases List.mem_cons.mp hkv with rfl | hkv
      · rw [hbad]; rfl
      · cases hrow : gameActionRow p.1 p.2 with
        | none => rfl
        | some r => exact ih _ k v hkv hbad

theorem gameActionRow_game_num_le (k : String) (v : List String)
    (r : GameActionsRow) (h : gameActionRow k v = some r) :
    r.Game_Num ≤ 9 := by
  unfold gameActionRow at h
  cases hc : k.data.getLast? with
  | none => rw [hc] at h; cases h
  | some c =>
      rw [hc] at h
      dsimp only at h
      split at h
      next hd =>
        cases h
        simp [Char.isDigit, UInt32.le_def, BitVec.le_def] at hd
        simp [Char.toNat, UInt32.toNat]
        omega
      next => cases h

theorem gameActionRow_eq (k : String) (v : List String)
    (r : GameActionsRow) (h : gameActionRow k v = some r) :
    ∃ c, k.data.getLast? = some c ∧ c.isDigit = true ∧
      r = ⟨pyDropLast2 k, c.toNat - 48,
           String.intercalate "\n" (pyLastN 15 v)⟩ := by
  unfold gameActionRow at h
  cases hc : k.data.getLast? with
  | none => rw [hc] at h; cases h
  | some c =>
      rw [hc] at h
      dsimp only at h
      split at h
      next hd =>
        cases h
        exact ⟨c, rfl, hd, rfl⟩
      next => cases h

end GameActionsLemmas

section RunLemmas

theorem parseAll_matchCount (now : String) (db : DB)
    (files : List LogFile) :
    (parseAll now db files).matchCount =
      ((newFiles db files).filter LogFile.isOk).length := by
  unfold parseAll
  rw [foldl_processFile_matchCount]
  simp

theorem parseAll_errorCount (now : String) (db : DB)
    (files : List LogFile) :
    (parseAll now db files).errorCount =
      ((newFiles db files).filter LogFile.isErr).length := by
  unfold parseAll
  rw [foldl_processFile_errorCount]
  simp

theorem parseAll_skippedCount (now : String) (db : DB)
    (files : List LogFile) :
    (parseAll now db files).skippedCount =
      ((newFiles db files).filter LogFile.isReject).length := by
  unfold parseAll
  rw [foldl_processFile_skippedCount]
  simp

theorem parseAll_ledger_mem (now : String) (db : DB)
    (files : List LogFile) (b : String) :
    ledgerHas (parseAll now db files).ledger b ↔
      ledgerHas db.processed_files b ∨
        ∃ f ∈ newFiles db files, f.isOk = true ∧ f.basename = b := by
  unfold parseAll
  rw [foldl_processFile_ledger_mem]

theorem parseAll_ledger_nodup (now : String) (db : DB)
    (files : List LogFile)
    (h : (db.processed_files.map ProcessedFilesRow.key).Nodup) :
    ((parseAll now db files).ledger.map ProcessedFilesRow.key).Nodup := by
  unfold parseAll
  exact foldl_processFile_ledger_nodup now _ _ h

theorem convert_logs_of_isEmpty (invert : AllData → AllData) (db : DB)
    (files : List LogFile) (now : String)
    (h : (newFiles db files).isEmpty = true) :
    convert_logs invert db files now = ⟨0, 0, 0, some db⟩ := by
  simp only [convert_logs]
  rw [if_pos h]

theorem convert_logs_of_no_match (invert : AllData → AllData) (db : DB)
    (files : List LogFile) (now : String)
    (h : ¬ (newFiles db files).isEmpty = true)
    (h2 : ¬ (parseAll now db files).matchCount > 0) :
    convert_logs invert db files now =
      ⟨(parseAll now db files).matchCount,
       (parseAll now db files).errorCount,
       (parseAll now db files).skippedCount, some db⟩ := by
  simp only [convert_logs]
  rw [if_neg h, if_neg h2]

theorem convert_logs_of_commit (invert : AllData → AllData) (db : DB)
    (files : List LogFile) (now : String) (ga : List GameActionsRow)
    (h : ¬ (newFiles db files).isEmpty = true)
    (h2 : (parseAll now db files).matchCount > 0)
    (hga : insertGameActions db.GameActions
        (invert (parseAll now db files).batch).all_actions = some ga) :
    convert_logs invert db files now =
      ⟨(parseAll now db files).matchCount,
       (parseAll now db files).errorCount,
       (parseAll now db files).skippedCount,
       some ⟨(parseAll now db files).ledger,
             (invert (parseAll now db files).batch).all_matches.foldl
               (insertOrIgnore MatchesRow.key) db.Matches,
             (invert (parseAll now db files).batch).all_games.foldl
               (insertOrIgnore GamesRow.key) db.Games,
             (invert (parseAll now db files).batch).all_plays.foldl
               insertPlays db.Plays,
             ga⟩⟩ := by
  simp only [convert_logs]
  rw [if_neg h, if_pos h2, hga]

theorem convert_logs_of_raise (invert : AllData → AllData) (db : DB)
    (files : List LogFile) (now : String)
    (h : ¬ (newFiles db files).isEmpty = true)
    (h2 : (parseAll now db files).matchCount > 0)
    (hga : insertGameActions db.GameActions
        (invert (parseAll now db files).batch).all_actions = none) :
    convert_logs invert db files now =
      ⟨(parseAll now db files).matchCount,
       (parseAll now db files).errorCount,
       (parseAll now db files).skippedCount, none⟩ := by
  simp only [convert_logs]
  rw [if_neg h, if_pos h2, hga]

theorem mem_newFiles (db : DB) (files : List LogFile) (f : LogFile) :
    f ∈ newFiles db files ↔
      f ∈ files ∧ ¬ ledgerHas db.processed_files f.basename := by
  simp [newFiles, ledgerHas, List.mem_filter]

theorem convert_logs_outcome_inv (invert : AllData → AllData) (db : DB)
    (files : List LogFile) (now : String) (S1 : DB)
    (h : (convert_logs invert db files now).outcome = some S1) :
    (S1 = db ∧ ((newFiles db files).filter LogFile.isOk).length = 0) ∨
    (∃ ga, ((newFiles db files).filter LogFile.isOk).length > 0 ∧
      insertGameActions db.GameActions
        (invert (parseAll now db files).batch).all_actions = some ga ∧
      S1 = commitDB invert db files now ga) := by
  by_cases hemp : (newFiles db files).isEmpty = true
  · rw [convert_logs_of_isEmpty invert db files now hemp] at h
    cases h
    left
    refine ⟨rfl, ?_⟩
    rw [List.isEmpty_iff.mp hemp]
    rfl
  · by_cases hm : (parseAll now db files).matchCount > 0
    · cases hga : insertGameActions db.GameActions
          (invert (parseAll now db files).batch).all_actions with
      | none =>
          rw [convert_logs_of_raise invert db files now hemp hm hga] at h
          cases h
      | some ga =>
          rw [convert_logs_of_commit invert db files now ga hemp hm hga] at h
          cases h
          right
          refine ⟨ga, ?_, rfl, rfl⟩
          rw [← parseAll_matchCount now db files]
          exact hm
    · rw [convert_logs_of_no_match invert db files now hemp hm] at h
      cases h
      left
      refine ⟨rfl, ?_⟩
      rw [← parseAll_matchCount now db files]
      omega


theorem exitOf_eq_zero (r : RunResult) (S : DB)
    (h : r.outcome = some S) : exitOf r = 0 := by
  unfold exitOf
  rw [h]

theorem convert_logs_counts (invert : AllData → AllData) (db : DB)
    (files : List LogFile) (now : String) :
    (convert_logs invert db files now).matchCount =
        (parseAll now db files).matchCount ∧
      (convert_logs invert db files now).errorCount =
        (parseAll now db files).errorCount ∧
      (convert_logs invert db files now).skippedCount =
        (parseAll now db files).skippedCount := by
  by_cases hemp : (newFiles db files).isEmpty = true
  · rw [convert_logs_of_isEmpty invert db files now hemp]
    unfold parseAll
    rw [List.isEmpty_iff.mp hemp]
    exact ⟨rfl, rfl, rfl⟩
  · by_cases hm : (parseAll now db files).matchCount > 0
    · cases hga : insertGameActions db.GameActions
          (invert (parseAll now db files).batch).all_actions with
      | none =>
          rw [convert_logs_of_raise invert db files now hemp hm hga]
          exact ⟨rfl, rfl, rfl⟩
      | some ga =>
          rw [convert_logs_of_commit invert db files now ga hemp hm hga]
          exact ⟨rfl, rfl, rfl⟩
    · rw [convert_logs_of_no_match invert db files now hemp hm]
      exact ⟨rfl, rfl, rfl⟩

theorem ok_err_reject_partition (l : List LogFile) :
    (l.filter LogFile.isOk).length + (l.filter LogFile.isErr).length +
      (l.filter LogFile.isReject).length = l.length := by
  induction l with
  | nil => rfl
  | cons f l ih =>
      cases hf : f.data <;>
        simp [List.filter_cons, LogFile.isOk, LogFile.isErr,
          LogFile.isReject, hf] <;>
        omega

theorem newFiles_filter_ok (db : DB) (files : List LogFile) :
    newFiles db (files.filter LogFile.isOk) =
      (newFiles db files).filter LogFile.isOk := by
  unfold newFiles
  rw [List.filter_filter, List.filter_filter]
  exact List.filter_congr (fun f _ => by rw [Bool.and_comm])

theorem parseAll_core_filter (now : String) (db : DB)
    (files : List LogFile) :
    (parseAll now db (files.filter LogFile.isOk)).core =
      (parseAll now db files).core := by
  unfold parseAll
  rw [newFiles_filter_ok]
  exact foldl_processFile_core_filter now _ _ _ rfl

theorem convert_logs_no_success (invert : AllData → AllData) (db : DB)
    (files : List LogFile) (now : String)
    (h : ∀ f ∈ newFiles db files, f.isOk = false) :
    (convert_logs invert db files now).outcome = some db ∧
    (convert_logs invert db files now).matchCount = 0 := by
  have hlen : ((newFiles db files).filter LogFile.isOk).length = 0 := by
    rw [List.length_eq_zero, List.filter_eq_nil]
    intro f hf
    simp [h f hf]
  by_cases hemp : (newFiles db files).isEmpty = true
  · rw [convert_logs_of_isEmpty invert db files now hemp]
    exact ⟨rfl, rfl⟩
  · have hm : ¬ (parseAll now db files).matchCount > 0 := by
      rw [parseAll_matchCount]
      omega
    rw [convert_logs_of_no_match invert db files now hemp hm]
    refine ⟨rfl, ?_⟩
    show (parseAll now db files).matchCount = 0
    rw [parseAll_matchCount]
    exact hlen

theorem convert_logs_filter_ok_outcome (invert : AllData → AllData)
    (db : DB) (files : List LogFile) (now : String) :
    (convert_logs invert db (files.filter LogFile.isOk) now).outcome =
      (convert_logs invert db files now).outcome := by
  have hnew := newFiles_filter_ok db files
  have hcore := parseAll_core_filter now db files
  have hled : (parseAll now db (files.filter LogFile.isOk)).ledger =
      (parseAll now db files).ledger := congrArg (fun x => x.1) hcore
  have hmc : (parseAll now db (files.filter LogFile.isOk)).matchCount =
      (parseAll now db files).matchCount := congrArg (fun x => x.2.1) hcore
  have hbatch : (parseAll now db (files.filter LogFile.isOk)).batch =
      (parseAll now db files).batch := congrArg (fun x => x.2.2) hcore
  by_cases hemp2 : ((newFiles db files).filter LogFile.isOk).isEmpty = true
  · rw [convert_logs_of_isEmpty invert db (files.filter LogFile.isOk) now
      (by rw [hnew]; exact hemp2)]
    have hm : ¬ (parseAll now db files).matchCount > 0 := by
      rw [parseAll_matchCount]
      rw [List.isEmpty_iff.mp hemp2]
      simp
    by_cases hemp : (newFiles db files).isEmpty = true
    · rw [convert_logs_of_isEmpty invert db files now hemp]
    · rw [convert_logs_of_no_match invert db files now hemp hm]
  · have hemp : ¬ (newFiles db files).isEmpty = true := by
      intro hc
      rw [List.isEmpty_iff.mp hc] at hemp2
      simp at hemp2
    have hm : (parseAll now db files).matchCount > 0 := by
      rw [parseAll_matchCount]
      have hne : (newFiles db files).filter LogFile.isOk ≠ [] := by
        intro hc
        rw [hc] at hemp2
        simp at hemp2
      have := List.length_pos.mpr hne
      omega
    have hm2 : (parseAll now db (files.filter LogFile.isOk)).matchCount > 0 := by
      rw [hmc]
      exact hm
    have hemp2b : ¬ (newFiles db (files.filter LogFile.isOk)).isEmpty = true := by
      rw [hnew]
      exact hemp2
    cases hga : insertGameActions db.GameActions
        (invert (parseAll now db files).batch).all_actions with
    | none =>
        rw [convert_logs_of_raise invert db files now hemp hm hga,
          convert_logs_of_raise invert db (files.filter LogFile.isOk) now
            hemp2b hm2 (by rw [hbatch]; exact hga)]
    | some ga =>
        rw [convert_logs_of_commit invert db files now ga hemp hm hga,
          convert_logs_of_commit invert db (files.filter LogFile.isOk) now ga
            hemp2b hm2 (by rw [hbatch]; exact hga)]
        dsimp only
        rw [hled, hbatch]

end RunLemmas



section Claims

/-- Claim C7: every `Game_Actions` value stored by the `GameActions`
insert step is at most the 15 most recent lines of that game's raw
action buffer joined by newlines, in original order (the stored lines
are a suffix of the buffer, so the oldest lines are evicted first),
and a buffer of 15 or fewer lines is stored in full. -/
theorem claim_c7_game_actions_capped (k : String) (v : List String)
    (r : GameActionsRow) (h : gameActionRow k v = some r) :
    ∃ s, s <:+ v ∧ s.length = min 15 v.length ∧
      r.Game_Actions = String.intercalate "\n" s ∧
      (v.length ≤ 15 → s = v) := by
  obtain ⟨c, hc, hd, rfl⟩ := gameActionRow_eq k v r h
  refine ⟨pyLastN 15 v, List.drop_suffix _ _, ?_, rfl, ?_⟩
  · simp only [pyLastN, List.length_drop]
    omega
  · intro hle
    unfold pyLastN
    have h0 : v.length - 15 = 0 := by omega
    rw [h0, List.drop_zero]

/-- Witness for C7 at the concrete key `"M1"` and a 2-line buffer. -/
theorem claim_c7_witness :
    ∃ s, s <:+ ["a", "b"] ∧
      s.length = min 15 (["a", "b"] : List String).length ∧
      (⟨"", 1, "a\nb"⟩ : GameActionsRow).Game_Actions =
        String.intercalate "\n" s ∧
      ((["a", "b"] : List String).length ≤ 15 → s = ["a", "b"]) :=
  claim_c7_game_actions_capped "M1" ["a", "b"] ⟨"", 1, "a\nb"⟩ (by decide)

/-- Claim C10: the `GameActions` insert decodes each inverted
action-map key into `Match_ID = key[:-2]` and `Game_Num =
int(key[-1])`; consequently every game number it stores is at most 9
(10 or more cannot be represented by a single digit), and a key whose
last character is not a decimal digit makes the insert step raise. -/
theorem claim_c10_key_decode :
    (∀ k v r, gameActionRow k v = some r →
      r.Match_ID = pyDropLast2 k ∧
      (∃ c, k.data.getLast? = some c ∧ c.isDigit = true ∧
        r.Game_Num = c.toNat - 48) ∧
      r.Game_Num ≤ 9) ∧
    (∀ k v, (∀ c, k.data.getLast? = some c → c.isDigit = false) →
      gameActionRow k v = none) ∧
    (∀ t entries k v, (k, v) ∈ entries → gameActionRow k v = none →
      insertGameActions t entries = none) := by
  refine ⟨?_, ?_, ?_⟩
  · intro k v r h
    have hle := gameActionRow_game_num_le k v r h
    obtain ⟨c, hc, hd, hr⟩ := gameActionRow_eq k v r h
    subst hr
    exact ⟨rfl, ⟨c, hc, hd, rfl⟩, hle⟩
  · intro k v hbad
    unfold gameActionRow
    cases hc : k.data.getLast? with
    | none => rfl
    | some c =>
        dsimp only
        simp [hbad c hc]
  · intro t entries k v hmem hbad
    exact insertGameActions_none_of_bad entries t k v hmem hbad

/-- Witness for C10: decoding of the digit key `"MP3"`, and the raise
on the non-digit key `"MPX"`. -/
theorem claim_c10_witness :
    ((⟨"M", 3, ""⟩ : GameActionsRow).Match_ID = pyDropLast2 "MP3" ∧
      (∃ c, "MP3".data.getLast? = some c ∧ c.isDigit = true ∧
        (⟨"M", 3, ""⟩ : GameActionsRow).Game_Num = c.toNat - 48) ∧
      (⟨"M", 3, ""⟩ : GameActionsRow).Game_Num ≤ 9) ∧
    insertGameActions [] [("MPX", [])] = none := by
  constructor
  · exact claim_c10_key_decode.1 "MP3" [] ⟨"M", 3, ""⟩ (by decide)
  · refine claim_c10_key_decode.2.2 [] [("MPX", [])] "MPX" []
      (by decide) ?_
    refine claim_c10_key_decode.2.1 "MPX" [] ?_
    intro c hc
    rw [show "MPX".data.getLast? = some 'X' from by decide] at hc
    injection hc with h
    rw [← h]
    decide

/-- Claim C2 (code bug at the `Plays` table): with a store already
holding `mRow0`, `gRow0` and `pRow0`, ingesting a file that parses to
exactly those rows leaves the keyed `Matches` and `Games` tables
unchanged, but appends a duplicate of the already-present `Plays` row
(count 1 to 2): `Plays` declares no primary key, so its
`INSERT OR IGNORE` never ignores anything. -/
theorem claim_c2_plays_duplicate :
    (visibleDB id dbC2 [fileC2] "2026-01-02").Matches = [mRow0] ∧
    (visibleDB id dbC2 [fileC2] "2026-01-02").Games = [gRow0] ∧
    (visibleDB id dbC2 [fileC2] "2026-01-02").Plays = [pRow0, pRow0] ∧
    dbC2.Plays.length = 1 ∧
    (visibleDB id dbC2 [fileC2] "2026-01-02").Plays.length = 2 := by
  decide

/-- Claim C1 (counterexample): the store already holds the
`GameActions` row `("M", 1, "old line")`; a later ingestion parses a
file producing an entry for the same `("M", 1)` key with value
`"new line"` and completes (`matchCount = 1`), yet the stored value is
still `"old line"` afterwards — the most recent write does NOT
overwrite the stored value. -/
theorem claim_c1_counterexample :
    (convert_logs id dbC1 [fileC1] "2026-01-02").matchCount = 1 ∧
    (visibleDB id dbC1 [fileC1] "2026-01-02").GameActions =
      [⟨"M", 1, "old line"⟩] ∧
    "old line" ≠ "new line" := by
  decide

/-- Claim C1 (amended): for every `(Match_ID, Game_Num)` key the
`GameActions` table holds at most one row, and a later ingestion that
produces an entry for an already-present key leaves the stored value
unchanged (`INSERT OR IGNORE`: the first write wins) — it neither
appends a second row nor overwrites the stored value. -/
theorem claim_c1_amended (invert : AllData → AllData) (db : DB)
    (files : List LogFile) (now : String) (S1 : DB)
    (hnd : (db.GameActions.map GameActionsRow.key).Nodup)
    (h : (convert_logs invert db files now).outcome = some S1) :
    (S1.GameActions.map GameActionsRow.key).Nodup ∧
    ∀ row ∈ db.GameActions, row ∈ S1.GameActions ∧
      ∀ row2 ∈ S1.GameActions, row2.key = row.key → row2 = row := by
  rcases convert_logs_outcome_inv invert db files now S1 h with
    ⟨rfl, -⟩ | ⟨ga, -, hga, rfl⟩
  · refine ⟨hnd, ?_⟩
    intro row hrow
    exact ⟨hrow, fun row2 hrow2 hk =>
      nodup_keys_unique _ _ hnd hrow2 hrow hk⟩
  · have hnd2 : ((commitDB invert db files now ga).GameActions.map
        GameActionsRow.key).Nodup := by
      simpa [commitDB] using
        insertGameActions_keys_nodup _ _ _ hga hnd
    refine ⟨hnd2, ?_⟩
    intro row hrow
    have hmem : row ∈ (commitDB invert db files now ga).GameActions := by
      simpa [commitDB] using insertGameActions_mem _ _ _ hga row hrow
    exact ⟨hmem, fun row2 hrow2 hk =>
      nodup_keys_unique _ _ hnd2 hrow2 hmem hk⟩

/-- Witness for the amended C1 on the concrete `dbC1` run. -/
theorem claim_c1_amended_witness :
    (S1C1.GameActions.map GameActionsRow.key).Nodup ∧
    (⟨"M", 1, "old line"⟩ : GameActionsRow) ∈ S1C1.GameActions :=
  ⟨(claim_c1_amended id dbC1 [fileC1] "2026-01-02" S1C1
      (by decide) (by decide)).1,
   ((claim_c1_amended id dbC1 [fileC1] "2026-01-02" S1C1
      (by decide) (by decide)).2
      ⟨"M", 1, "old line"⟩ (by decide)).1⟩

/-- Claim C6: a run in which no new candidate file parses successfully
(including a run with zero new candidates) skips the commit entirely
and leaves every table's contents unchanged. -/
theorem claim_c6_no_success_skips_commit (invert : AllData → AllData)
    (db : DB) (files : List LogFile) (now : String)
    (h : ∀ f ∈ newFiles db files, f.isOk = false) :
    (convert_logs invert db files now).outcome = some db ∧
    (convert_logs invert db files now).matchCount = 0 :=
  convert_logs_no_success invert db files now h

/-- Witness for C6: a run over a single unreadable file commits
nothing. -/
theorem claim_c6_witness :
    (convert_logs id dbEmpty [fErr] "t").outcome = some dbEmpty ∧
    (convert_logs id dbEmpty [fErr] "t").matchCount = 0 :=
  claim_c6_no_success_skips_commit id dbEmpty [fErr] "t" (by decide)

/-- Claim C4: running the ingestion a second time over the same
candidate files and the store produced by a completed first run
processes zero files successfully and returns the store exactly
unchanged, so every table's row count equals its count after the
first run. -/
theorem claim_c4_second_run_noop (invert : AllData → AllData) (db : DB)
    (files : List LogFile) (now now2 : String) (S1 : DB)
    (h : (convert_logs invert db files now).outcome = some S1) :
    (convert_logs invert S1 files now2).outcome = some S1 ∧
    (convert_logs invert S1 files now2).matchCount = 0 := by
  have hled : ∀ f ∈ files, f.isOk = true →
      ledgerHas S1.processed_files f.basename := by
    rcases convert_logs_outcome_inv invert db files now S1 h with
      ⟨hS1, hzero⟩ | ⟨ga, -, hga, rfl⟩
    · intro f hf hok
      rw [hS1]
      by_cases hmem : f ∈ newFiles db files
      · exfalso
        have hin : f ∈ (newFiles db files).filter LogFile.isOk :=
          List.mem_filter.mpr ⟨hmem, hok⟩
        have hne := List.ne_nil_of_mem hin
        rw [List.length_eq_zero] at hzero
        exact hne hzero
      · by_contra hnl
        exact hmem ((mem_newFiles db files f).mpr ⟨hf, hnl⟩)
    · intro f hf hok
      rw [show (commitDB invert db files now ga).processed_files =
          (parseAll now db files).ledger from rfl, parseAll_ledger_mem]
      by_cases hmem : f ∈ newFiles db files
      · exact Or.inr ⟨f, hmem, hok, rfl⟩
      · left
        by_contra hnl
        exact hmem ((mem_newFiles db files f).mpr ⟨hf, hnl⟩)
  have hzero2 : ∀ f ∈ newFiles S1 files, f.isOk = false := by
    intro f hf
    rcases (mem_newFiles S1 files f).mp hf with ⟨hfl, hnl⟩
    by_contra hok
    exact hnl (hled f hfl (by simpa using hok))
  exact convert_logs_no_success invert S1 files now2 hzero2

/-- Witness for C4 on the concrete first run over `dbC1`. -/
theorem claim_c4_witness :
    (convert_logs id S1C1 [fileC1] "t2").outcome = some S1C1 ∧
    (convert_logs id S1C1 [fileC1] "t2").matchCount = 0 :=
  claim_c4_second_run_noop id dbC1 [fileC1] "2026-01-02" "t2" S1C1
    (by decide)

/-- Claim C3: single-commit atomicity — a run either leaves the store
exactly as it was, or commits, in one state, the full ledger (holding a
row for every successfully parsed file, and gaining rows only for
those files) together with all the derived-table inserts of the same
batch; no state has the ledger rows without the derived rows or vice
versa. -/
theorem claim_c3_single_commit (invert : AllData → AllData) (db : DB)
    (files : List LogFile) (now : String) :
    visibleDB invert db files now = db ∨
    ∃ ga, insertGameActions db.GameActions
        (invert (parseAll now db files).batch).all_actions = some ga ∧
      visibleDB invert db files now = commitDB invert db files now ga ∧
      (∀ f ∈ newFiles db files, f.isOk = true →
        ledgerHas (commitDB invert db files now ga).processed_files
          f.basename) ∧
      (∀ b, ledgerHas (commitDB invert db files now ga).processed_files b ↔
        ledgerHas db.processed_files b ∨
          ∃ f ∈ newFiles db files, f.isOk = true ∧ f.basename = b) := by
  cases hout : (convert_logs invert db files now).outcome with
  | none =>
      left
      unfold visibleDB
      rw [hout]
      rfl
  | some S1 =>
      rcases convert_logs_outcome_inv invert db files now S1 hout with
        ⟨rfl, -⟩ | ⟨ga, -, hga, rfl⟩
      · left
        unfold visibleDB
        rw [hout]
        rfl
      · right
        refine ⟨ga, hga, ?_, ?_, ?_⟩
        · unfold visibleDB
          rw [hout]
          rfl
        · intro f hf hok
          rw [show (commitDB invert db files now ga).processed_files =
              (parseAll now db files).ledger from rfl, parseAll_ledger_mem]
          exact Or.inr ⟨f, hf, hok, rfl⟩
        · intro b
          rw [show (commitDB invert db files now ga).processed_files =
              (parseAll now db files).ledger from rfl]
          exact parseAll_ledger_mem now db files b

/-- Witness for C3: the concrete `dbC1` run commits ledger and derived
rows together, yielding exactly `S1C1`. -/
theorem claim_c3_witness :
    visibleDB id dbC1 [fileC1] "2026-01-02" = S1C1 := by
  rcases claim_c3_single_commit id dbC1 [fileC1] "2026-01-02" with
    h | ⟨ga, hga, h, -, -⟩
  · exact absurd h (by decide)
  · have hga2 : some ga = some [(⟨"M", 1, "old line"⟩ : GameActionsRow)] := by
      rw [← hga]
      decide
    injection hga2 with hga3
    subst hga3
    rw [h]
    decide

/-- Claim C5: per-file failures are isolated — the three run counters
classify the new files exactly (processed = parsed ok, errored,
skipped) and together account for every new file, so processing
continues past failures; the ledger gains entries exactly for the
successfully parsed basenames (none for errored or rejected files,
which stay re-eligible); and deleting the errored and rejected files
from the batch leaves the resulting store identical, so no derived
rows stem from them. -/
theorem claim_c5_failure_isolation (invert : AllData → AllData)
    (db : DB) (files : List LogFile) (now : String) :
    (convert_logs invert db files now).matchCount =
      ((newFiles db files).filter LogFile.isOk).length ∧
    (convert_logs invert db files now).errorCount =
      ((newFiles db files).filter LogFile.isErr).length ∧
    (convert_logs invert db files now).skippedCount =
      ((newFiles db files).filter LogFile.isReject).length ∧
    (convert_logs invert db files now).matchCount +
      (convert_logs invert db files now).errorCount +
      (convert_logs invert db files now).skippedCount =
      (newFiles db files).length ∧
    (convert_logs invert db (files.filter LogFile.isOk) now).outcome =
      (convert_logs invert db files now).outcome ∧
    (∀ S1, (convert_logs invert db files now).outcome = some S1 →
      ∀ b, ledgerHas S1.processed_files b ↔
        ledgerHas db.processed_files b ∨
          ∃ f ∈ newFiles db files, f.isOk = true ∧ f.basename = b) := by
  obtain ⟨hc1, hc2, hc3⟩ := convert_logs_counts invert db files now
  have hm := parseAll_matchCount now db files
  have he := parseAll_errorCount now db files
  have hsk := parseAll_skippedCount now db files
  refine ⟨hc1.trans hm, hc2.trans he, hc3.trans hsk, ?_, ?_, ?_⟩
  · rw [hc1.trans hm, hc2.trans he, hc3.trans hsk]
    exact ok_err_reject_partition (newFiles db files)
  · exact convert_logs_filter_ok_outcome invert db files now
  · intro S1 hout b
    rcases convert_logs_outcome_inv invert db files now S1 hout with
      ⟨hS1, hzero⟩ | ⟨ga, -, hga, rfl⟩
    · rw [hS1]
      constructor
      · exact fun h => Or.inl h
      · rintro (h | ⟨f, hf, hok, rfl⟩)
        · exact h
        · exfalso
          have hin : f ∈ (newFiles db files).filter LogFile.isOk :=
            List.mem_filter.mpr ⟨hf, hok⟩
          have hne := List.ne_nil_of_mem hin
          rw [List.length_eq_zero] at hzero
          exact hne hzero
    · rw [show (commitDB invert db files now ga).processed_files =
          (parseAll now db files).ledger from rfl]
      exact parseAll_ledger_mem now db files b

/-- Witness for C5 on a concrete batch of one erroring file. -/
theorem claim_c5_witness :
    (convert_logs id dbEmpty [fErr] "t").errorCount = 1 ∧
    (convert_logs id dbEmpty [fErr] "t").matchCount = 0 := by
  have h := claim_c5_failure_isolation id dbEmpty [fErr] "t"
  constructor
  · rw [h.2.1]
    decide
  · rw [h.1]
    decide

/-- Claim C9: file identity in the ledger is the basename alone — the
ledger never holds two rows with the same `Filename` (at most one row
ever exists per basename), and any candidate whose basename is already
ledgered is filtered out of the run before parsing. -/
theorem claim_c9_basename_identity (invert : AllData → AllData)
    (db : DB) (files : List LogFile) (now : String)
    (hnd : (db.processed_files.map ProcessedFilesRow.key).Nodup) :
    (∀ S1, (convert_logs invert db files now).outcome = some S1 →
      (S1.processed_files.map ProcessedFilesRow.key).Nodup) ∧
    (∀ f ∈ files, ledgerHas db.processed_files f.basename →
      f ∉ newFiles db files) := by
  constructor
  · intro S1 h
    rcases convert_logs_outcome_inv invert db files now S1 h with
      ⟨rfl, -⟩ | ⟨ga, -, hga, rfl⟩
    · exact hnd
    · exact parseAll_ledger_nodup now db files hnd
  · intro f hf hl hmem
    exact ((mem_newFiles db files f).mp hmem).2 hl

/-- Witness for C9: the already-ledgered basename of `fileC1` is
filtered out of a run over `dbC9`, whose ledger stays duplicate-free. -/
theorem claim_c9_witness :
    (dbC9.processed_files.map ProcessedFilesRow.key).Nodup ∧
    fileC1 ∉ newFiles dbC9 [fileC1] :=
  ⟨(claim_c9_basename_identity id dbC9 [fileC1] "t" (by decide)).1 dbC9
      (by decide),
   (claim_c9_basename_identity id dbC9 [fileC1] "t" (by decide)).2 fileC1
      (by decide) (by decide)⟩

/-- Claim C8 (counterexample): with a source folder that exists, a run
over a file that parses successfully but carries the action-map key
`"MPX"` (non-digit last character) aborts in the insert phase before
`conn.commit()`, and the ingest command exits 1, refuting the claim's
unconditional "status zero otherwise". -/
theorem claim_c8_counterexample :
    (fun _ => true : String → Bool) "/logs" = true ∧
    mainExit id ["/logs"] (fun _ => true) dbEmpty [fileC8] "t" = 1 := by
  decide

/-- Claim C8 (amended): the ingest command exits non-zero when the
source folder given on the command line does not exist; when the
folder exists it exits zero exactly when the run returns normally —
in particular always when the scan finds zero new files — and exits
non-zero when an unhandled exception aborts the run before the
commit. -/
theorem claim_c8_amended (invert : AllData → AllData)
    (folder : String) (rest : List String) (pathExists : String → Bool)
    (db : DB) (files : List LogFile) (now : String)
    (hs : folder ≠ "--stats") (hh : folder ≠ "--help") :
    (pathExists folder = false →
      mainExit invert (folder :: rest) pathExists db files now = 1) ∧
    (pathExists folder = true → (newFiles db files).isEmpty = true →
      mainExit invert (folder :: rest) pathExists db files now = 0) ∧
    (∀ S1, pathExists folder = true →
      (convert_logs invert db files now).outcome = some S1 →
      mainExit invert (folder :: rest) pathExists db files now = 0) ∧
    (pathExists folder = true →
      (convert_logs invert db files now).outcome = none →
      mainExit invert (folder :: rest) pathExists db files now = 1) := by
  refine ⟨?_, ?_, ?_, ?_⟩
  · intro hpe
    simp [mainExit, hs, hh, hpe]
  · intro hpe hemp
    simp only [mainExit, if_neg hs, if_neg hh, hpe, if_pos rfl, if_true]
    exact exitOf_eq_zero _ db
      (convert_logs_of_isEmpty invert db files now hemp ▸ rfl)
  · intro S1 hpe h
    simp only [mainExit, if_neg hs, if_neg hh, hpe, if_pos rfl, if_true]
    exact exitOf_eq_zero _ S1 h
  · intro hpe h
    simp only [mainExit, if_neg hs, if_neg hh, hpe, if_pos rfl, if_true]
    unfold exitOf
    rw [h]

/-- Witness for the amended C8: a missing folder exits 1; an existing
folder with zero new files exits 0; an existing folder whose run
aborts on the `"MPX"` key exits 1. -/
theorem claim_c8_amended_witness :
    mainExit id ["/missing"] (fun _ => false) dbEmpty [] "t" = 1 ∧
    mainExit id ["/logs"] (fun _ => true) dbEmpty [] "t" = 0 ∧
    mainExit id ["/logs"] (fun _ => true) dbEmpty [fileC8] "t" = 1 :=
  ⟨(claim_c8_amended id "/missing" [] (fun _ => false) dbEmpty [] "t"
      (by decide) (by decide)).1 rfl,
   (claim_c8_amended id "/logs" [] (fun _ => true) dbEmpty [] "t"
      (by decide) (by decide)).2.1 rfl (by decide),
   (claim_c8_amended id "/logs" [] (fun _ => true) dbEmpty [fileC8] "t"
      (by decide) (by decide)).2.2.2 rfl (by decide)⟩

end Claims

end MTGOTracker
